import Mathlib

/-!
Shallow embedding of the STM32 UART-DMA logger core (logger.h / logger.cpp).

The embedding models the circular send buffer, the enqueue path (the
LDREX/STREX reservation loop executed sequentially, so the store-conditional
succeeds on the first iteration), the transfer controller
(`process` / `startTransfer` / `transferCompletedCallback`) and a trace
semantics recording the byte ranges handed to `HAL_UART_Transmit_DMA`.
All 16-bit machine arithmetic is modelled on `Nat` with explicit reduction
modulo 2 ^ 16; buffer indices are `Nat` applied to a total storage function.
The `isInISR()` query and the uart-handle identity check of the completion
callback are external inputs: `isInISR` becomes an explicit boolean
parameter, and since there is a single `logger` instance the handle check
of `transferCompletedCallback` always succeeds.
-/

/-- `SEND_BUFFER_SIZE` from logger.h: the length of the circular send buffer. -/
def SEND_BUFFER_SIZE : Nat := 512

/-- `ATOMIC_INCH`: increment of a `uint16_t`, wrapping modulo 2 ^ 16. -/
def inc16 (n : Nat) : Nat := (n + 1) % 65536

/-- `ATOMIC_DECH`: decrement of a `uint16_t`, wrapping modulo 2 ^ 16. -/
def dec16 (n : Nat) : Nat := (n + 65535) % 65536

/-- `uint16_t` subtraction `a - b`, wrapping modulo 2 ^ 16. -/
def sub16 (a b : Nat) : Nat := (a + 65536 - b) % 65536

/-- `Logger::advancePos`: advance a position in the circular buffer. -/
def advancePos (pos : Nat) (step : Nat) : Nat := (pos + step) % SEND_BUFFER_SIZE

/-- The mutable fields of the `Logger` class (logger.h). The `m_uart`
handle is omitted: there is one instance and the model treats the
hardware-transmit capability through the emitted requests instead. -/
structure Logger where
  m_send_buffer : Nat → Nat
  m_is_sending : Bool
  m_read_pos : Nat
  m_new_read_pos : Nat
  m_write_pos : Nat
  m_enqueue_guard : Nat
  m_missed_count : Nat

/-- The global `Logger logger;` object: zero-initialized static storage. -/
def initLogger : Logger :=
  { m_send_buffer := fun _ => 0
    m_is_sending := false
    m_read_pos := 0
    m_new_read_pos := 0
    m_write_pos := 0
    m_enqueue_guard := 0
    m_missed_count := 0 }

/-- `Logger::availableSpace(uint16_t write_pos)` (logger.h lines 244-247):
`write_pos >= m_read_pos ? SEND_BUFFER_SIZE - (write_pos - m_read_pos) - 1U
: m_read_pos - write_pos - 1U`, with `uint16_t` subtraction. -/
def Logger.availableSpace (s : Logger) (write_pos : Nat) : Nat :=
  if s.m_read_pos ≤ write_pos then
    sub16 (sub16 SEND_BUFFER_SIZE (sub16 write_pos s.m_read_pos)) 1
  else
    sub16 (sub16 s.m_read_pos write_pos) 1

/-- A single store `buf[p] = v` into the storage function. -/
def setAt (buf : Nat → Nat) (p v : Nat) : Nat → Nat :=
  fun j => if j = p then v else buf j

/-- One of the copy loops of `Logger::enqueue`: starting at destination
index `pos` and source index `i`, perform `n` iterations of
`m_send_buffer[pos++] = str[i++]`. -/
def copySeg (str : List Nat) : (Nat → Nat) → Nat → Nat → Nat → Nat → Nat
  | buf, _, _, 0 => buf
  | buf, pos, i, Nat.succ n => copySeg str (setAt buf pos (str.getD i 0)) (pos + 1) (i + 1) n

/-- The copy phase of `Logger::enqueue` (logger.cpp lines 78-98): a single
loop when `new_write_pos > write_pos`, otherwise a loop up to the end of
the storage (`till_end_count = SEND_BUFFER_SIZE - write_pos` iterations)
followed by a loop from index 0 running while `i < length`. -/
def enqueueWrite (buf : Nat → Nat) (write_pos : Nat) (str : List Nat) (length : Nat)
    (new_write_pos : Nat) : Nat → Nat :=
  if write_pos < new_write_pos then
    copySeg str buf write_pos 0 length
  else
    copySeg str (copySeg str buf write_pos 0 (sub16 SEND_BUFFER_SIZE write_pos)) 0
      (sub16 SEND_BUFFER_SIZE write_pos) (length - sub16 SEND_BUFFER_SIZE write_pos)

/-- The reservation computed inside the LDREX/STREX loop of
`Logger::enqueue` (logger.cpp line 74):
`availableSpace(write_pos) >= length ? advancePos(write_pos, length) :
write_pos`. -/
def Logger.reserveTarget (s : Logger) (length : Nat) : Nat :=
  if length ≤ s.availableSpace s.m_write_pos then advancePos s.m_write_pos length
  else s.m_write_pos

/-- `Logger::startTransfer` (logger.cpp lines 118-138). The second
component is the request handed to `HAL_UART_Transmit_DMA`: the start
index into `m_send_buffer` and the byte count, or `none` when no transfer
is started. -/
def Logger.startTransfer (s : Logger) : Logger × Option (Nat × Nat) :=
  let send_pos := s.m_write_pos
  if send_pos ≠ s.m_read_pos ∧ s.m_enqueue_guard = 0 then
    if s.m_read_pos < send_pos then
      ({ s with m_is_sending := true, m_new_read_pos := send_pos },
        some (s.m_read_pos, sub16 send_pos s.m_read_pos))
    else
      ({ s with m_is_sending := true, m_new_read_pos := 0 },
        some (s.m_read_pos, sub16 SEND_BUFFER_SIZE s.m_read_pos))
  else
    ({ s with m_is_sending := false }, none)

/-- `Logger::process` (logger.cpp lines 108-113); `inISR` is the value of
the external `isInISR()` query. -/
def Logger.process (s : Logger) (inISR : Bool) : Logger × Option (Nat × Nat) :=
  if s.m_is_sending || inISR then (s, none) else s.startTransfer

/-- `Logger::enqueue` (logger.cpp lines 64-106), executed sequentially:
the guard is incremented and decremented around the reservation and copy,
the store-conditional succeeds on the first iteration, and `process()` is
invoked at the end. -/
def Logger.enqueue (s : Logger) (str : List Nat) (length : Nat) (inISR : Bool) :
    Logger × Option (Nat × Nat) :=
  let write_pos := s.m_write_pos
  let new_write_pos := s.reserveTarget length
  let s1 :=
    if write_pos ≠ new_write_pos then
      { s with m_write_pos := new_write_pos
               m_send_buffer := enqueueWrite s.m_send_buffer write_pos str length new_write_pos
               m_enqueue_guard := dec16 (inc16 s.m_enqueue_guard) }
    else
      { s with m_write_pos := new_write_pos
               m_missed_count := inc16 s.m_missed_count
               m_enqueue_guard := dec16 (inc16 s.m_enqueue_guard) }
  s1.process inISR

/-- `Logger::transferCompletedCallback` (logger.cpp lines 143-149) for the
single `logger` instance: adopt `m_new_read_pos` and chain the next
transfer. -/
def Logger.transferCompletedCallback (s : Logger) : Logger × Option (Nat × Nat) :=
  Logger.startTransfer { s with m_read_pos := s.m_new_read_pos }

/-- An operation of the sequentialized system: an `enqueue` call, a
`process` poll, or a DMA transfer-complete interrupt. -/
inductive Op where
  | enq (str : List Nat) (length : Nat) (inISR : Bool)
  | proc (inISR : Bool)
  | complete

/-- The message bytes `str[0..length)` of an enqueue call. -/
def msgBytes (str : List Nat) (length : Nat) : List Nat :=
  (List.range length).map fun i => str.getD i 0

/-- The bytes covered by a transmit request `(start, count)`, read from the
storage at hand-off time: `HAL_UART_Transmit_DMA(uart, &buf[start], count)`. -/
def reqBytes (buf : Nat → Nat) : Option (Nat × Nat) → List Nat
  | none => []
  | some (p, c) => (List.range c).map fun i => buf (p + i)

/-- The logger together with the accumulated transmitted byte stream and
the successfully reserved messages, in reservation order. -/
structure Sys where
  st : Logger
  emitted : List Nat
  msgs : List (List Nat)

/-- The system at start-up. -/
def initSys : Sys := { st := initLogger, emitted := [], msgs := [] }

/-- Execute one operation, accumulating the bytes handed to the hardware
and recording a successfully reserved message. -/
def execOp (y : Sys) : Op → Sys
  | .enq str length inISR =>
      let r := y.st.enqueue str length inISR
      { st := r.1
        emitted := y.emitted ++ reqBytes r.1.m_send_buffer r.2
        msgs := y.msgs ++
          if y.st.reserveTarget length ≠ y.st.m_write_pos then [msgBytes str length] else [] }
  | .proc inISR =>
      let r := y.st.process inISR
      { st := r.1, emitted := y.emitted ++ reqBytes r.1.m_send_buffer r.2, msgs := y.msgs }
  | .complete =>
      let r := y.st.transferCompletedCallback
      { st := r.1, emitted := y.emitted ++ reqBytes r.1.m_send_buffer r.2, msgs := y.msgs }

/-- Execute a sequence of operations. -/
def execTrace (y : Sys) (ops : List Op) : Sys := ops.foldl execOp y

/-- Every enqueue call of the trace asks for at most the space available at
the time of the call. -/
def fitsAll (s : Logger) : List Op → Bool
  | [] => true
  | .enq str length inISR :: rest =>
      decide (length ≤ s.availableSpace s.m_write_pos) &&
        fitsAll (s.enqueue str length inISR).1 rest
  | .proc inISR :: rest => fitsAll (s.process inISR).1 rest
  | .complete :: rest => fitsAll s.transferCompletedCallback.1 rest

/-- The messages of all enqueue calls of a trace, in call order. -/
def enqMsgs (ops : List Op) : List (List Nat) :=
  ops.filterMap fun op =>
    match op with
    | .enq str length _ => some (msgBytes str length)
    | _ => none

/-- Circular distance from `a` to `b` in the send buffer: the number of
occupied slots when `a` is the read position and `b` the write position. -/
def distC (a b : Nat) : Nat := (b + SEND_BUFFER_SIZE - a) % SEND_BUFFER_SIZE

/-- Read `n` bytes circularly from the storage starting at `pos`. -/
def ringRead (buf : Nat → Nat) (pos n : Nat) : List Nat :=
  (List.range n).map fun i => buf ((pos + i) % SEND_BUFFER_SIZE)

/-- The first position not yet handed to the hardware: `m_new_read_pos`
while a transfer is in flight, `m_read_pos` otherwise. -/
def effRead (s : Logger) : Nat := if s.m_is_sending then s.m_new_read_pos else s.m_read_pos

/-- The enqueued bytes not yet handed to the hardware. -/
def residualBytes (s : Logger) : List Nat :=
  ringRead s.m_send_buffer (effRead s) (distC (effRead s) s.m_write_pos)

/-- State invariant of the sequentialized logger: positions are in range,
no reservation is in flight between operations, the pending read position
lies inside the occupied region while a transfer is in flight, and it
coincides with `m_read_pos` while idle. -/
def StInv (s : Logger) : Prop :=
  s.m_read_pos < SEND_BUFFER_SIZE ∧ s.m_write_pos < SEND_BUFFER_SIZE ∧
  s.m_new_read_pos < SEND_BUFFER_SIZE ∧ s.m_enqueue_guard = 0 ∧
  (s.m_is_sending = true →
    distC s.m_read_pos s.m_new_read_pos ≤ distC s.m_read_pos s.m_write_pos) ∧
  (s.m_is_sending = false → s.m_new_read_pos = s.m_read_pos)

/-- System invariant: the transmitted stream followed by the bytes still
pending in the buffer is exactly the concatenation of the successfully
reserved messages. -/
def SysInv (y : Sys) : Prop :=
  StInv y.st ∧ y.emitted ++ residualBytes y.st = y.msgs.flatten

/-! ### Arithmetic helper lemmas -/

theorem sub16_of_le (a b : Nat) (ha : a < 65536) (hb : b ≤ a) : sub16 a b = a - b := by
  unfold sub16
  omega

theorem availableSpace_eq (s : Logger) (w : Nat) (hr : s.m_read_pos < SEND_BUFFER_SIZE)
    (hw : w < SEND_BUFFER_SIZE) :
    s.availableSpace w = SEND_BUFFER_SIZE - 1 - distC s.m_read_pos w := by
  unfold Logger.availableSpace sub16 distC SEND_BUFFER_SIZE at *
  split <;> omega

theorem availableSpace_le (s : Logger) (w : Nat) (hr : s.m_read_pos < SEND_BUFFER_SIZE)
    (hw : w < SEND_BUFFER_SIZE) :
    s.availableSpace w ≤ SEND_BUFFER_SIZE - 1 := by
  rw [availableSpace_eq s w hr hw]
  omega

theorem distC_lt (a b : Nat) : distC a b < SEND_BUFFER_SIZE := by
  unfold distC SEND_BUFFER_SIZE
  omega

theorem distC_self (a : Nat) : distC a a = 0 := by
  unfold distC SEND_BUFFER_SIZE
  omega

theorem distC_index (e i : Nat) (he : e < SEND_BUFFER_SIZE) (hi : i < SEND_BUFFER_SIZE) :
    distC e ((e + i) % SEND_BUFFER_SIZE) = i := by
  unfold distC SEND_BUFFER_SIZE at *
  omega

/-! ### Pointwise characterization of the copy loops -/

theorem copySeg_apply (str : List Nat) :
    ∀ (n : Nat) (buf : Nat → Nat) (pos i j : Nat),
      copySeg str buf pos i n j =
        if pos ≤ j ∧ j < pos + n then str.getD (i + (j - pos)) 0 else buf j := by
  intro n
  induction n with
  | zero =>
      intro buf pos i j
      show buf j = _
      rw [if_neg (by omega)]
  | succ n ih =>
      intro buf pos i j
      show copySeg str (setAt buf pos (str.getD i 0)) (pos + 1) (i + 1) n j = _
      rw [ih]
      unfold setAt
      by_cases h1 : pos + 1 ≤ j ∧ j < pos + 1 + n
      · rw [if_pos h1, if_pos (by omega)]
        congr 1
        omega
      · rw [if_neg h1]
        by_cases h2 : j = pos
        · rw [if_pos h2, if_pos (by omega)]
          congr 1
          omega
        · rw [if_neg h2, if_neg (by omega)]

theorem enqueueWrite_apply (buf : Nat → Nat) (str : List Nat) (wp len j : Nat)
    (hwp : wp < SEND_BUFFER_SIZE) (h0 : 0 < len) (hlen : len ≤ SEND_BUFFER_SIZE - 1)
    (hj : j < SEND_BUFFER_SIZE) :
    enqueueWrite buf wp str len (advancePos wp len) j =
      if distC wp j < len then str.getD (distC wp j) 0 else buf j := by
  unfold SEND_BUFFER_SIZE at hwp hlen hj
  unfold enqueueWrite
  have hsub : sub16 SEND_BUFFER_SIZE wp = 512 - wp := by
    unfold sub16 SEND_BUFFER_SIZE
    omega
  by_cases hcase : wp + len < 512
  · have hcond : wp < advancePos wp len := by
      unfold advancePos SEND_BUFFER_SIZE
      omega
    rw [if_pos hcond, copySeg_apply]
    by_cases hin : wp ≤ j ∧ j < wp + len
    · rw [if_pos hin,
        if_pos (show distC wp j < len by unfold distC SEND_BUFFER_SIZE; omega)]
      congr 1
      unfold distC SEND_BUFFER_SIZE
      omega
    · rw [if_neg hin,
        if_neg (show ¬(distC wp j < len) by unfold distC SEND_BUFFER_SIZE; omega)]
  · have hcond : ¬(wp < advancePos wp len) := by
      unfold advancePos SEND_BUFFER_SIZE
      omega
    rw [if_neg hcond, hsub]
    simp only [copySeg_apply]
    by_cases h1 : 0 ≤ j ∧ j < 0 + (len - (512 - wp))
    · rw [if_pos h1,
        if_pos (show distC wp j < len by unfold distC SEND_BUFFER_SIZE; omega)]
      congr 1
      unfold distC SEND_BUFFER_SIZE
      omega
    · rw [if_neg h1]
      by_cases h2 : wp ≤ j ∧ j < wp + (512 - wp)
      · rw [if_pos h2,
          if_pos (show distC wp j < len by unfold distC SEND_BUFFER_SIZE; omega)]
        congr 1
        unfold distC SEND_BUFFER_SIZE
        omega
      · rw [if_neg h2,
          if_neg (show ¬(distC wp j < len) by unfold distC SEND_BUFFER_SIZE; omega)]

/-! ### Ring-read lemmas -/

theorem ringRead_zero (buf : Nat → Nat) (p : Nat) : ringRead buf p 0 = [] := by
  simp [ringRead]

theorem ringRead_split (buf : Nat → Nat) (p m n : Nat) :
    ringRead buf p (m + n) =
      ringRead buf p m ++ ringRead buf ((p + m) % SEND_BUFFER_SIZE) n := by
  unfold ringRead
  rw [List.range_add, List.map_append, List.map_map]
  congr 1
  apply List.map_congr_left
  intro x hx
  simp only [Function.comp_apply]
  congr 1
  unfold SEND_BUFFER_SIZE
  omega

theorem ringRead_congr (buf1 buf2 : Nat → Nat) (p n : Nat)
    (h : ∀ i, i < n → buf1 ((p + i) % SEND_BUFFER_SIZE) = buf2 ((p + i) % SEND_BUFFER_SIZE)) :
    ringRead buf1 p n = ringRead buf2 p n := by
  unfold ringRead
  apply List.map_congr_left
  intro a ha
  exact h a (List.mem_range.mp ha)

theorem ringRead_eq_msgBytes (buf : Nat → Nat) (p n : Nat) (str : List Nat)
    (h : ∀ i, i < n → buf ((p + i) % SEND_BUFFER_SIZE) = str.getD i 0) :
    ringRead buf p n = msgBytes str n := by
  unfold ringRead msgBytes
  apply List.map_congr_left
  intro a ha
  exact h a (List.mem_range.mp ha)

theorem reqBytes_eq_ringRead (buf : Nat → Nat) (p c : Nat) (h : p + c ≤ SEND_BUFFER_SIZE) :
    reqBytes buf (some (p, c)) = ringRead buf p c := by
  unfold reqBytes ringRead SEND_BUFFER_SIZE at *
  apply List.map_congr_left
  intro a ha
  have ha' := List.mem_range.mp ha
  congr 1
  omega

/-! ### Invariant and stream lemmas for the transfer controller -/

theorem distC_sub (a m b : Nat) (ha : a < SEND_BUFFER_SIZE) (hm : m < SEND_BUFFER_SIZE)
    (hb : b < SEND_BUFFER_SIZE) (h : distC a m ≤ distC a b) :
    distC m b = distC a b - distC a m := by
  unfold distC SEND_BUFFER_SIZE at *
  omega

theorem effRead_spec (s : Logger) (h : StInv s) :
    effRead s < SEND_BUFFER_SIZE ∧
    distC (effRead s) s.m_write_pos ≤ distC s.m_read_pos s.m_write_pos := by
  obtain ⟨hr, hw, hn, _, hs1, _⟩ := h
  cases hb : s.m_is_sending with
  | false =>
      have he : effRead s = s.m_read_pos := by simp [effRead, hb]
      rw [he]
      exact ⟨hr, le_refl _⟩
  | true =>
      have he : effRead s = s.m_new_read_pos := by simp [effRead, hb]
      rw [he]
      refine ⟨hn, ?_⟩
      rw [distC_sub s.m_read_pos s.m_new_read_pos s.m_write_pos hr hn hw (hs1 hb)]
      omega

theorem startTransfer_spec (s : Logger) (h : StInv s)
    (hrn : s.m_read_pos = s.m_new_read_pos) :
    StInv s.startTransfer.1 ∧
    reqBytes s.startTransfer.1.m_send_buffer s.startTransfer.2 ++
        residualBytes s.startTransfer.1 =
      ringRead s.m_send_buffer s.m_read_pos (distC s.m_read_pos s.m_write_pos) ∧
    s.startTransfer.1.m_send_buffer = s.m_send_buffer ∧
    s.startTransfer.1.m_write_pos = s.m_write_pos ∧
    s.startTransfer.1.m_read_pos = s.m_read_pos ∧
    s.startTransfer.1.m_missed_count = s.m_missed_count ∧
    s.startTransfer.1.m_enqueue_guard = s.m_enqueue_guard := by
  obtain ⟨hr, hw, hn, hg, hs1, hs2⟩ := h
  by_cases hc : s.m_write_pos ≠ s.m_read_pos ∧ s.m_enqueue_guard = 0
  · by_cases hlt : s.m_read_pos < s.m_write_pos
    · have hst : s.startTransfer =
          ({ s with m_is_sending := true, m_new_read_pos := s.m_write_pos },
            some (s.m_read_pos, sub16 s.m_write_pos s.m_read_pos)) := by
        unfold Logger.startTransfer
        rw [if_pos hc, if_pos hlt]
      rw [hst]
      refine ⟨?_, ?_, rfl, rfl, rfl, rfl, rfl⟩
      · show StInv { s with m_is_sending := true, m_new_read_pos := s.m_write_pos }
        exact ⟨hr, hw, hw, hg, fun _ => le_refl _, fun hff => nomatch hff⟩
      · show reqBytes s.m_send_buffer (some (s.m_read_pos, sub16 s.m_write_pos s.m_read_pos)) ++
            residualBytes { s with m_is_sending := true, m_new_read_pos := s.m_write_pos } = _
        have hres : residualBytes
            { s with m_is_sending := true, m_new_read_pos := s.m_write_pos } = [] := by
          unfold residualBytes
          rw [show effRead { s with m_is_sending := true, m_new_read_pos := s.m_write_pos } =
            s.m_write_pos from rfl]
          rw [distC_self, ringRead_zero]
        have hsub : sub16 s.m_write_pos s.m_read_pos = s.m_write_pos - s.m_read_pos :=
          sub16_of_le _ _ (by simp only [SEND_BUFFER_SIZE] at hw; omega) (le_of_lt hlt)
        have hd : distC s.m_read_pos s.m_write_pos = s.m_write_pos - s.m_read_pos := by
          simp only [distC, SEND_BUFFER_SIZE] at *
          omega
        rw [hres, hsub, hd, List.append_nil]
        exact reqBytes_eq_ringRead _ _ _ (by simp only [SEND_BUFFER_SIZE] at *; omega)
    · have hwr : s.m_write_pos < s.m_read_pos := by
        rcases Nat.lt_or_ge s.m_write_pos s.m_read_pos with h' | h'
        · exact h'
        · exact absurd (Nat.le_antisymm (Nat.not_lt.mp hlt) h') hc.1
      have hst : s.startTransfer =
          ({ s with m_is_sending := true, m_new_read_pos := 0 },
            some (s.m_read_pos, sub16 SEND_BUFFER_SIZE s.m_read_pos)) := by
        unfold Logger.startTransfer
        rw [if_pos hc, if_neg hlt]
      rw [hst]
      refine ⟨?_, ?_, rfl, rfl, rfl, rfl, rfl⟩
      · show StInv { s with m_is_sending := true, m_new_read_pos := 0 }
        refine ⟨hr, hw, ?_, hg, fun _ => ?_, fun hff => nomatch hff⟩
        · show (0 : Nat) < SEND_BUFFER_SIZE
          decide
        · show distC s.m_read_pos 0 ≤ distC s.m_read_pos s.m_write_pos
          simp only [distC, SEND_BUFFER_SIZE] at *
          omega
      · show reqBytes s.m_send_buffer (some (s.m_read_pos, sub16 SEND_BUFFER_SIZE s.m_read_pos)) ++
            residualBytes { s with m_is_sending := true, m_new_read_pos := 0 } = _
        have hres : residualBytes { s with m_is_sending := true, m_new_read_pos := 0 } =
            ringRead s.m_send_buffer 0 (distC 0 s.m_write_pos) := by
          unfold residualBytes
          rw [show effRead { s with m_is_sending := true, m_new_read_pos := 0 } = 0 from rfl]
        have hsub : sub16 SEND_BUFFER_SIZE s.m_read_pos = SEND_BUFFER_SIZE - s.m_read_pos := by
          simp only [sub16, SEND_BUFFER_SIZE] at *
          omega
        have hd : distC s.m_read_pos s.m_write_pos =
            (SEND_BUFFER_SIZE - s.m_read_pos) + distC 0 s.m_write_pos := by
          simp only [distC, SEND_BUFFER_SIZE] at *
          omega
        have hz : (s.m_read_pos + (SEND_BUFFER_SIZE - s.m_read_pos)) % SEND_BUFFER_SIZE = 0 := by
          simp only [SEND_BUFFER_SIZE] at hr ⊢
          omega
        rw [hres, hsub,
          reqBytes_eq_ringRead s.m_send_buffer s.m_read_pos (SEND_BUFFER_SIZE - s.m_read_pos)
            (by simp only [SEND_BUFFER_SIZE] at hr ⊢; omega),
          hd, ringRead_split, hz]
  · have hwr : s.m_write_pos = s.m_read_pos := by
      rcases not_and_or.mp hc with h' | h'
      · exact not_ne_iff.mp h'
      · exact absurd hg h'
    have hst : s.startTransfer = ({ s with m_is_sending := false }, none) := by
      unfold Logger.startTransfer
      rw [if_neg hc]
    rw [hst]
    refine ⟨?_, ?_, rfl, rfl, rfl, rfl, rfl⟩
    · show StInv { s with m_is_sending := false }
      exact ⟨hr, hw, hn, hg, fun hff => absurd hff Bool.false_ne_true, fun _ => hrn.symm⟩
    · show reqBytes s.m_send_buffer none ++
          residualBytes { s with m_is_sending := false } = _
      have hres : residualBytes { s with m_is_sending := false } =
          ringRead s.m_send_buffer s.m_read_pos (distC s.m_read_pos s.m_write_pos) := by
        unfold residualBytes
        rw [show effRead { s with m_is_sending := false } = s.m_read_pos from rfl]
      rw [hres]
      rfl

theorem process_spec (s : Logger) (b : Bool) (h : StInv s) :
    StInv (s.process b).1 ∧
    reqBytes (s.process b).1.m_send_buffer (s.process b).2 ++ residualBytes (s.process b).1 =
      residualBytes s ∧
    (s.process b).1.m_send_buffer = s.m_send_buffer ∧
    (s.process b).1.m_write_pos = s.m_write_pos ∧
    (s.process b).1.m_read_pos = s.m_read_pos ∧
    (s.process b).1.m_missed_count = s.m_missed_count ∧
    (s.process b).1.m_enqueue_guard = s.m_enqueue_guard := by
  by_cases hb : (s.m_is_sending || b) = true
  · have hp : s.process b = (s, none) := by
      unfold Logger.process
      rw [if_pos hb]
    rw [hp]
    exact ⟨h, rfl, rfl, rfl, rfl, rfl, rfl⟩
  · have hsend : s.m_is_sending = false := by
      cases hs : s.m_is_sending
      · rfl
      · exact absurd (by rw [hs]; rfl) hb
    have hp : s.process b = s.startTransfer := by
      unfold Logger.process
      rw [if_neg hb]
    have hrn : s.m_read_pos = s.m_new_read_pos := (h.2.2.2.2.2 hsend).symm
    obtain ⟨h1, h2, h3, h4, h5, h6, h7⟩ := startTransfer_spec s h hrn
    rw [hp]
    refine ⟨h1, ?_, h3, h4, h5, h6, h7⟩
    rw [h2]
    unfold residualBytes effRead
    rw [hsend]
    rfl

theorem complete_spec (s : Logger) (h : StInv s) :
    StInv s.transferCompletedCallback.1 ∧
    reqBytes s.transferCompletedCallback.1.m_send_buffer s.transferCompletedCallback.2 ++
        residualBytes s.transferCompletedCallback.1 = residualBytes s ∧
    s.transferCompletedCallback.1.m_send_buffer = s.m_send_buffer ∧
    s.transferCompletedCallback.1.m_write_pos = s.m_write_pos ∧
    s.transferCompletedCallback.1.m_read_pos = s.m_new_read_pos ∧
    s.transferCompletedCallback.1.m_missed_count = s.m_missed_count ∧
    s.transferCompletedCallback.1.m_enqueue_guard = s.m_enqueue_guard := by
  obtain ⟨hr, hw, hn, hg, hs1, hs2⟩ := h
  have h1 : StInv { s with m_read_pos := s.m_new_read_pos } := by
    refine ⟨hn, hw, hn, hg, fun _ => ?_, fun _ => rfl⟩
    show distC s.m_new_read_pos s.m_new_read_pos ≤ _
    rw [distC_self]
    exact Nat.zero_le _
  obtain ⟨g1, g2, g3, g4, g5, g6, g7⟩ :=
    startTransfer_spec { s with m_read_pos := s.m_new_read_pos } h1 rfl
  refine ⟨g1, ?_, g3, g4, g5, g6, g7⟩
  rw [show s.transferCompletedCallback =
    Logger.startTransfer { s with m_read_pos := s.m_new_read_pos } from rfl]
  rw [g2]
  show ringRead s.m_send_buffer s.m_new_read_pos
      (distC s.m_new_read_pos s.m_write_pos) = residualBytes s
  unfold residualBytes effRead
  cases hb : s.m_is_sending with
  | true => rfl
  | false =>
      rw [hs2 hb, if_neg (show ¬(false = true) by decide)]

/-! ### Lemmas about the enqueue path -/

theorem reserve_facts (s : Logger) (len : Nat) (hr : s.m_read_pos < SEND_BUFFER_SIZE)
    (hw : s.m_write_pos < SEND_BUFFER_SIZE) (hres : s.reserveTarget len ≠ s.m_write_pos) :
    len ≤ s.availableSpace s.m_write_pos ∧ 0 < len ∧ len ≤ SEND_BUFFER_SIZE - 1 ∧
    s.reserveTarget len = advancePos s.m_write_pos len := by
  unfold Logger.reserveTarget at hres ⊢
  by_cases hle : len ≤ s.availableSpace s.m_write_pos
  · rw [if_pos hle] at hres ⊢
    have hlen : len ≤ SEND_BUFFER_SIZE - 1 := le_trans hle (availableSpace_le s _ hr hw)
    refine ⟨hle, ?_, hlen, rfl⟩
    by_contra h0
    push_neg at h0
    apply hres
    simp only [advancePos, SEND_BUFFER_SIZE] at *
    omega
  · rw [if_neg hle] at hres
    exact absurd rfl hres

theorem reserve_miss_zero (s : Logger) (len : Nat) (hr : s.m_read_pos < SEND_BUFFER_SIZE)
    (hw : s.m_write_pos < SEND_BUFFER_SIZE) (hle : len ≤ s.availableSpace s.m_write_pos)
    (hres : s.reserveTarget len = s.m_write_pos) : len = 0 := by
  unfold Logger.reserveTarget at hres
  rw [if_pos hle] at hres
  have hlen : len ≤ SEND_BUFFER_SIZE - 1 := le_trans hle (availableSpace_le s _ hr hw)
  simp only [advancePos, SEND_BUFFER_SIZE] at *
  omega

theorem enq_residual_aux (buf : Nat → Nat) (str : List Nat) (e w len : Nat)
    (he : e < SEND_BUFFER_SIZE) (hw : w < SEND_BUFFER_SIZE) (h0 : 0 < len)
    (hlen : len ≤ SEND_BUFFER_SIZE - 1)
    (hsum : distC e w + len ≤ SEND_BUFFER_SIZE - 1) :
    ringRead (enqueueWrite buf w str len (advancePos w len)) e (distC e (advancePos w len)) =
      ringRead buf e (distC e w) ++ msgBytes str len := by
  have hD : distC e (advancePos w len) = distC e w + len := by
    simp only [distC, advancePos, SEND_BUFFER_SIZE] at *
    omega
  have hEW : (e + distC e w) % SEND_BUFFER_SIZE = w := by
    simp only [distC, SEND_BUFFER_SIZE] at *
    omega
  have hA : ringRead (enqueueWrite buf w str len (advancePos w len)) e (distC e w) =
      ringRead buf e (distC e w) := by
    apply ringRead_congr
    intro i hi
    rw [enqueueWrite_apply buf str w len ((e + i) % SEND_BUFFER_SIZE) hw h0 hlen
      (by simp only [SEND_BUFFER_SIZE]; omega)]
    rw [if_neg (show ¬(distC w ((e + i) % SEND_BUFFER_SIZE) < len) by
      simp only [distC, SEND_BUFFER_SIZE] at hi hsum he hw ⊢
      omega)]
  have hB : ringRead (enqueueWrite buf w str len (advancePos w len)) w len =
      msgBytes str len := by
    apply ringRead_eq_msgBytes
    intro i hi
    rw [enqueueWrite_apply buf str w len ((w + i) % SEND_BUFFER_SIZE) hw h0 hlen
      (by simp only [SEND_BUFFER_SIZE]; omega)]
    rw [distC_index w i hw (by simp only [SEND_BUFFER_SIZE] at hlen ⊢; omega)]
    rw [if_pos hi]
  rw [hD, ringRead_split, hEW, hA, hB]

theorem residualBytes_congr (s t : Logger) (hbuf : t.m_send_buffer = s.m_send_buffer)
    (hsend : t.m_is_sending = s.m_is_sending) (hread : t.m_read_pos = s.m_read_pos)
    (hnrp : t.m_new_read_pos = s.m_new_read_pos) (hwp : t.m_write_pos = s.m_write_pos) :
    residualBytes t = residualBytes s := by
  unfold residualBytes effRead
  rw [hbuf, hsend, hread, hnrp, hwp]

theorem enqueue_spec (s : Logger) (str : List Nat) (len : Nat) (b : Bool) (h : StInv s) :
    StInv (s.enqueue str len b).1 ∧
    reqBytes (s.enqueue str len b).1.m_send_buffer (s.enqueue str len b).2 ++
        residualBytes (s.enqueue str len b).1 =
      residualBytes s ++
        (if s.reserveTarget len ≠ s.m_write_pos then msgBytes str len else []) ∧
    (s.enqueue str len b).1.m_read_pos = s.m_read_pos ∧
    (s.enqueue str len b).1.m_missed_count =
      (if s.reserveTarget len ≠ s.m_write_pos then s.m_missed_count
       else inc16 s.m_missed_count) := by
  obtain ⟨hr, hw, hn, hg, hq5, hq6⟩ := h
  have hguard : dec16 (inc16 s.m_enqueue_guard) = 0 := by
    rw [hg]
    decide
  by_cases hres : s.reserveTarget len ≠ s.m_write_pos
  · obtain ⟨hle, h0, hlen, htgt⟩ := reserve_facts s len hr hw hres
    have henq : s.enqueue str len b = Logger.process
        { s with m_write_pos := advancePos s.m_write_pos len
                 m_send_buffer := enqueueWrite s.m_send_buffer s.m_write_pos str len
                   (advancePos s.m_write_pos len)
                 m_enqueue_guard := dec16 (inc16 s.m_enqueue_guard) } b := by
      show Logger.process
          (if s.m_write_pos ≠ s.reserveTarget len then
            { s with m_write_pos := s.reserveTarget len
                     m_send_buffer := enqueueWrite s.m_send_buffer s.m_write_pos str len
                       (s.reserveTarget len)
                     m_enqueue_guard := dec16 (inc16 s.m_enqueue_guard) }
          else
            { s with m_write_pos := s.reserveTarget len
                     m_missed_count := inc16 s.m_missed_count
                     m_enqueue_guard := dec16 (inc16 s.m_enqueue_guard) }) b = _
      rw [if_pos (Ne.symm hres), htgt]
    have hw' : advancePos s.m_write_pos len < SEND_BUFFER_SIZE := by
      simp only [advancePos, SEND_BUFFER_SIZE]
      omega
    have havle : len ≤ SEND_BUFFER_SIZE - 1 - distC s.m_read_pos s.m_write_pos := by
      rw [availableSpace_eq s _ hr hw] at hle
      exact hle
    have hDr : distC s.m_read_pos (advancePos s.m_write_pos len) =
        distC s.m_read_pos s.m_write_pos + len := by
      simp only [distC, advancePos, SEND_BUFFER_SIZE] at havle hr hw ⊢
      omega
    have hinv1 : StInv
        { s with m_write_pos := advancePos s.m_write_pos len
                 m_send_buffer := enqueueWrite s.m_send_buffer s.m_write_pos str len
                   (advancePos s.m_write_pos len)
                 m_enqueue_guard := dec16 (inc16 s.m_enqueue_guard) } := by
      refine ⟨hr, hw', hn, hguard, fun hsend => ?_, fun hsend => hq6 hsend⟩
      show distC s.m_read_pos s.m_new_read_pos ≤
        distC s.m_read_pos (advancePos s.m_write_pos len)
      rw [hDr]
      exact le_trans (hq5 hsend) (Nat.le_add_right _ _)
    have hres1 : residualBytes
        { s with m_write_pos := advancePos s.m_write_pos len
                 m_send_buffer := enqueueWrite s.m_send_buffer s.m_write_pos str len
                   (advancePos s.m_write_pos len)
                 m_enqueue_guard := dec16 (inc16 s.m_enqueue_guard) } =
        residualBytes s ++ msgBytes str len := by
      obtain ⟨hel, hed⟩ := effRead_spec s ⟨hr, hw, hn, hg, hq5, hq6⟩
      show ringRead (enqueueWrite s.m_send_buffer s.m_write_pos str len
          (advancePos s.m_write_pos len)) (effRead s)
          (distC (effRead s) (advancePos s.m_write_pos len)) =
        ringRead s.m_send_buffer (effRead s) (distC (effRead s) s.m_write_pos) ++
          msgBytes str len
      exact enq_residual_aux s.m_send_buffer str (effRead s) s.m_write_pos len hel hw h0 hlen
        (by simp only [SEND_BUFFER_SIZE] at havle ⊢; omega)
    obtain ⟨p1, p2, p3, p4, p5, p6, p7⟩ := process_spec
      { s with m_write_pos := advancePos s.m_write_pos len
               m_send_buffer := enqueueWrite s.m_send_buffer s.m_write_pos str len
                 (advancePos s.m_write_pos len)
               m_enqueue_guard := dec16 (inc16 s.m_enqueue_guard) } b hinv1
    rw [henq]
    refine ⟨p1, ?_, p5, ?_⟩
    · rw [if_pos hres, p2, hres1]
    · rw [if_pos hres]
      exact p6
  · have hres' : s.reserveTarget len = s.m_write_pos := not_ne_iff.mp hres
    have henq : s.enqueue str len b = Logger.process
        { s with m_write_pos := s.m_write_pos
                 m_missed_count := inc16 s.m_missed_count
                 m_enqueue_guard := dec16 (inc16 s.m_enqueue_guard) } b := by
      show Logger.process
          (if s.m_write_pos ≠ s.reserveTarget len then
            { s with m_write_pos := s.reserveTarget len
                     m_send_buffer := enqueueWrite s.m_send_buffer s.m_write_pos str len
                       (s.reserveTarget len)
                     m_enqueue_guard := dec16 (inc16 s.m_enqueue_guard) }
          else
            { s with m_write_pos := s.reserveTarget len
                     m_missed_count := inc16 s.m_missed_count
                     m_enqueue_guard := dec16 (inc16 s.m_enqueue_guard) }) b = _
      rw [if_neg (not_ne_iff.mpr hres'.symm), hres']
    have hinv1 : StInv
        { s with m_write_pos := s.m_write_pos
                 m_missed_count := inc16 s.m_missed_count
                 m_enqueue_guard := dec16 (inc16 s.m_enqueue_guard) } :=
      ⟨hr, hw, hn, hguard, fun hsend => hq5 hsend, fun hsend => hq6 hsend⟩
    have hres1 : residualBytes
        { s with m_write_pos := s.m_write_pos
                 m_missed_count := inc16 s.m_missed_count
                 m_enqueue_guard := dec16 (inc16 s.m_enqueue_guard) } = residualBytes s :=
      residualBytes_congr _ _ rfl rfl rfl rfl rfl
    obtain ⟨p1, p2, p3, p4, p5, p6, p7⟩ := process_spec
      { s with m_write_pos := s.m_write_pos
               m_missed_count := inc16 s.m_missed_count
               m_enqueue_guard := dec16 (inc16 s.m_enqueue_guard) } b hinv1
    rw [henq]
    refine ⟨p1, ?_, p5, ?_⟩
    · rw [if_neg (not_not_intro hres'), p2, hres1, List.append_nil]
    · rw [if_neg (not_not_intro hres')]
      exact p6

/-! ### Trace-level invariants -/

theorem execOp_inv (y : Sys) (op : Op) (h : SysInv y) : SysInv (execOp y op) := by
  obtain ⟨hst, heq⟩ := h
  cases op with
  | enq str len b =>
      obtain ⟨e1, e2, e3, e4⟩ := enqueue_spec y.st str len b hst
      refine ⟨e1, ?_⟩
      show (y.emitted ++ reqBytes (y.st.enqueue str len b).1.m_send_buffer
            (y.st.enqueue str len b).2) ++ residualBytes (y.st.enqueue str len b).1 =
        (y.msgs ++ if y.st.reserveTarget len ≠ y.st.m_write_pos then [msgBytes str len]
          else []).flatten
      have hite : (if y.st.reserveTarget len ≠ y.st.m_write_pos then [msgBytes str len]
          else ([] : List (List Nat))).flatten =
          (if y.st.reserveTarget len ≠ y.st.m_write_pos then msgBytes str len else []) := by
        split
        · simp
        · simp
      rw [List.append_assoc, e2, List.flatten_append, ← heq, hite, List.append_assoc]
  | proc b =>
      obtain ⟨p1, p2, _, _, _, _, _⟩ := process_spec y.st b hst
      refine ⟨p1, ?_⟩
      show (y.emitted ++ reqBytes (y.st.process b).1.m_send_buffer (y.st.process b).2) ++
          residualBytes (y.st.process b).1 = y.msgs.flatten
      rw [List.append_assoc, p2, heq]
  | complete =>
      obtain ⟨p1, p2, _, _, _, _, _⟩ := complete_spec y.st hst
      refine ⟨p1, ?_⟩
      show (y.emitted ++ reqBytes y.st.transferCompletedCallback.1.m_send_buffer
            y.st.transferCompletedCallback.2) ++
          residualBytes y.st.transferCompletedCallback.1 = y.msgs.flatten
      rw [List.append_assoc, p2, heq]

theorem initSys_inv : SysInv initSys := by
  refine ⟨⟨?_, ?_, ?_, rfl, ?_, fun _ => rfl⟩, ?_⟩
  · decide
  · decide
  · decide
  · intro hff
    exact absurd hff (by decide)
  · show ([] : List Nat) ++ residualBytes initLogger = ([] : List (List Nat)).flatten
    rfl

theorem execTrace_inv (ops : List Op) : ∀ y : Sys, SysInv y → SysInv (execTrace y ops) := by
  induction ops with
  | nil => exact fun y h => h
  | cons op rest ih => exact fun y h => ih (execOp y op) (execOp_inv y op h)

theorem execTrace_msgs (ops : List Op) : ∀ y : Sys, SysInv y → fitsAll y.st ops = true →
    (execTrace y ops).msgs.flatten = y.msgs.flatten ++ (enqMsgs ops).flatten := by
  induction ops with
  | nil =>
      intro y _ _
      show y.msgs.flatten = y.msgs.flatten ++ ([] : List (List Nat)).flatten
      simp
  | cons op rest ih =>
      intro y hinv hfits
      cases op with
      | enq str len b =>
          have hf : (decide (len ≤ y.st.availableSpace y.st.m_write_pos) &&
              fitsAll (y.st.enqueue str len b).1 rest) = true := hfits
          rw [Bool.and_eq_true] at hf
          obtain ⟨hle0, hrest⟩ := hf
          have hle : len ≤ y.st.availableSpace y.st.m_write_pos := of_decide_eq_true hle0
          show (execTrace (execOp y (Op.enq str len b)) rest).msgs.flatten = _
          rw [ih (execOp y (Op.enq str len b)) (execOp_inv y _ hinv) hrest]
          have hmsgs : (execOp y (Op.enq str len b)).msgs =
              y.msgs ++ (if y.st.reserveTarget len ≠ y.st.m_write_pos then [msgBytes str len]
                else []) := rfl
          have henq : enqMsgs (Op.enq str len b :: rest) = msgBytes str len :: enqMsgs rest := rfl
          rw [hmsgs, List.flatten_append, List.append_assoc, henq, List.flatten_cons]
          have hiteF : (if y.st.reserveTarget len ≠ y.st.m_write_pos then [msgBytes str len]
              else ([] : List (List Nat))).flatten = msgBytes str len := by
            by_cases hc : y.st.reserveTarget len ≠ y.st.m_write_pos
            · rw [if_pos hc]
              simp
            · rw [if_neg hc]
              have hz : len = 0 :=
                reserve_miss_zero y.st len hinv.1.1 hinv.1.2.1 hle (not_ne_iff.mp hc)
              rw [hz]
              rfl
          rw [hiteF]
      | proc b =>
          exact ih (execOp y (Op.proc b)) (execOp_inv y _ hinv) hfits
      | complete =>
          exact ih (execOp y Op.complete) (execOp_inv y _ hinv) hfits

/-! ### Unconditional field-preservation helpers -/

theorem startTransfer_fields (s : Logger) :
    s.startTransfer.1.m_send_buffer = s.m_send_buffer ∧
    s.startTransfer.1.m_write_pos = s.m_write_pos ∧
    s.startTransfer.1.m_read_pos = s.m_read_pos ∧
    s.startTransfer.1.m_missed_count = s.m_missed_count ∧
    s.startTransfer.1.m_enqueue_guard = s.m_enqueue_guard := by
  unfold Logger.startTransfer
  by_cases hc : s.m_write_pos ≠ s.m_read_pos ∧ s.m_enqueue_guard = 0
  · rw [if_pos hc]
    by_cases hlt : s.m_read_pos < s.m_write_pos
    · rw [if_pos hlt]
      exact ⟨rfl, rfl, rfl, rfl, rfl⟩
    · rw [if_neg hlt]
      exact ⟨rfl, rfl, rfl, rfl, rfl⟩
  · rw [if_neg hc]
    exact ⟨rfl, rfl, rfl, rfl, rfl⟩

theorem process_fields (s : Logger) (b : Bool) :
    (s.process b).1.m_send_buffer = s.m_send_buffer ∧
    (s.process b).1.m_write_pos = s.m_write_pos ∧
    (s.process b).1.m_read_pos = s.m_read_pos ∧
    (s.process b).1.m_missed_count = s.m_missed_count ∧
    (s.process b).1.m_enqueue_guard = s.m_enqueue_guard := by
  unfold Logger.process
  by_cases hb : (s.m_is_sending || b) = true
  · rw [if_pos hb]
    exact ⟨rfl, rfl, rfl, rfl, rfl⟩
  · rw [if_neg hb]
    exact startTransfer_fields s

theorem enqueue_cases (s : Logger) (str : List Nat) (len : Nat) (b : Bool) :
    (s.m_write_pos ≠ s.reserveTarget len ∧ s.enqueue str len b = Logger.process
      { s with m_write_pos := s.reserveTarget len
               m_send_buffer := enqueueWrite s.m_send_buffer s.m_write_pos str len
                 (s.reserveTarget len)
               m_enqueue_guard := dec16 (inc16 s.m_enqueue_guard) } b) ∨
    (s.m_write_pos = s.reserveTarget len ∧ s.enqueue str len b = Logger.process
      { s with m_write_pos := s.reserveTarget len
               m_missed_count := inc16 s.m_missed_count
               m_enqueue_guard := dec16 (inc16 s.m_enqueue_guard) } b) := by
  by_cases hne : s.m_write_pos ≠ s.reserveTarget len
  · left
    refine ⟨hne, ?_⟩
    show Logger.process
        (if s.m_write_pos ≠ s.reserveTarget len then
          { s with m_write_pos := s.reserveTarget len
                   m_send_buffer := enqueueWrite s.m_send_buffer s.m_write_pos str len
                     (s.reserveTarget len)
                   m_enqueue_guard := dec16 (inc16 s.m_enqueue_guard) }
        else
          { s with m_write_pos := s.reserveTarget len
                   m_missed_count := inc16 s.m_missed_count
                   m_enqueue_guard := dec16 (inc16 s.m_enqueue_guard) }) b = _
    rw [if_pos hne]
  · right
    refine ⟨not_ne_iff.mp hne, ?_⟩
    show Logger.process
        (if s.m_write_pos ≠ s.reserveTarget len then
          { s with m_write_pos := s.reserveTarget len
                   m_send_buffer := enqueueWrite s.m_send_buffer s.m_write_pos str len
                     (s.reserveTarget len)
                   m_enqueue_guard := dec16 (inc16 s.m_enqueue_guard) }
        else
          { s with m_write_pos := s.reserveTarget len
                   m_missed_count := inc16 s.m_missed_count
                   m_enqueue_guard := dec16 (inc16 s.m_enqueue_guard) }) b = _
    rw [if_neg hne]

theorem enqueue_state_success (s : Logger) (str : List Nat) (len : Nat) (b : Bool)
    (hr : s.m_read_pos < SEND_BUFFER_SIZE) (hw : s.m_write_pos < SEND_BUFFER_SIZE)
    (h0 : 0 < len) (hle : len ≤ s.availableSpace s.m_write_pos) :
    (s.enqueue str len b).1.m_send_buffer =
      enqueueWrite s.m_send_buffer s.m_write_pos str len (advancePos s.m_write_pos len) ∧
    (s.enqueue str len b).1.m_write_pos = advancePos s.m_write_pos len ∧
    (s.enqueue str len b).1.m_read_pos = s.m_read_pos ∧
    (s.enqueue str len b).1.m_missed_count = s.m_missed_count := by
  have hlen : len ≤ SEND_BUFFER_SIZE - 1 := le_trans hle (availableSpace_le s _ hr hw)
  have htgt : s.reserveTarget len = advancePos s.m_write_pos len := by
    unfold Logger.reserveTarget
    rw [if_pos hle]
  have hne : s.m_write_pos ≠ s.reserveTarget len := by
    rw [htgt]
    simp only [advancePos, SEND_BUFFER_SIZE] at hw hlen ⊢
    omega
  rcases enqueue_cases s str len b with ⟨_, heq⟩ | ⟨heqw, _⟩
  · rw [heq, htgt]
    obtain ⟨f1, f2, f3, f4, _⟩ := process_fields
      { s with m_write_pos := advancePos s.m_write_pos len
               m_send_buffer := enqueueWrite s.m_send_buffer s.m_write_pos str len
                 (advancePos s.m_write_pos len)
               m_enqueue_guard := dec16 (inc16 s.m_enqueue_guard) } b
    exact ⟨f1, f2, f3, f4⟩
  · exact absurd heqw hne

/-! ### Claim theorems -/

/-- C2: if `enqueue` is called with a message strictly larger than the available
space, the storage contents, `m_write_pos` and `m_read_pos` are unchanged (no
partial message is written) and `m_missed_count` is incremented by exactly one
(a 16-bit increment, as `ATOMIC_INCH` performs it). -/
theorem enqueue_insufficient_space_drops (s : Logger) (str : List Nat) (len : Nat) (b : Bool)
    (hlen : s.availableSpace s.m_write_pos < len) :
    (s.enqueue str len b).1.m_send_buffer = s.m_send_buffer ∧
    (s.enqueue str len b).1.m_write_pos = s.m_write_pos ∧
    (s.enqueue str len b).1.m_read_pos = s.m_read_pos ∧
    (s.enqueue str len b).1.m_missed_count = inc16 s.m_missed_count := by
  have htgt : s.reserveTarget len = s.m_write_pos := by
    unfold Logger.reserveTarget
    rw [if_neg (by omega)]
  rcases enqueue_cases s str len b with ⟨hne, _⟩ | ⟨_, heq⟩
  · exact absurd htgt (Ne.symm hne)
  · rw [heq, htgt]
    obtain ⟨f1, f2, f3, f4, _⟩ := process_fields
      { s with m_write_pos := s.m_write_pos
               m_missed_count := inc16 s.m_missed_count
               m_enqueue_guard := dec16 (inc16 s.m_enqueue_guard) } b
    exact ⟨f1, f2, f3, f4⟩

/-- Witness for C2 at the initial state with an oversized message. -/
theorem enqueue_insufficient_space_drops_witness :
    initLogger.availableSpace initLogger.m_write_pos < 512 ∧
    ((initLogger.enqueue [] 512 true).1.m_send_buffer = initLogger.m_send_buffer ∧
      (initLogger.enqueue [] 512 true).1.m_write_pos = initLogger.m_write_pos ∧
      (initLogger.enqueue [] 512 true).1.m_read_pos = initLogger.m_read_pos ∧
      (initLogger.enqueue [] 512 true).1.m_missed_count = inc16 initLogger.m_missed_count) :=
  ⟨by decide, enqueue_insufficient_space_drops initLogger [] 512 true (by decide)⟩

/-- C10: `enqueue(str, 0)` never writes to storage and never changes `m_write_pos`,
but increments `m_missed_count`, whatever the available space is, because a
zero-length reservation leaves `m_write_pos` at its old value and that case is
counted as a miss. -/
theorem enqueue_zero_length_counts_miss (s : Logger) (str : List Nat) (b : Bool)
    (hw : s.m_write_pos < SEND_BUFFER_SIZE) :
    (s.enqueue str 0 b).1.m_send_buffer = s.m_send_buffer ∧
    (s.enqueue str 0 b).1.m_write_pos = s.m_write_pos ∧
    (s.enqueue str 0 b).1.m_missed_count = inc16 s.m_missed_count := by
  have htgt : s.reserveTarget 0 = s.m_write_pos := by
    unfold Logger.reserveTarget
    rw [if_pos (Nat.zero_le _)]
    simp only [advancePos, SEND_BUFFER_SIZE] at hw ⊢
    omega
  rcases enqueue_cases s str 0 b with ⟨hne, _⟩ | ⟨_, heq⟩
  · exact absurd htgt (Ne.symm hne)
  · rw [heq, htgt]
    obtain ⟨f1, f2, f3, f4, _⟩ := process_fields
      { s with m_write_pos := s.m_write_pos
               m_missed_count := inc16 s.m_missed_count
               m_enqueue_guard := dec16 (inc16 s.m_enqueue_guard) } b
    exact ⟨f1, f2, f4⟩

/-- Witness for C10 at the initial state, where the available space is nonzero. -/
theorem enqueue_zero_length_counts_miss_witness :
    initLogger.m_write_pos < SEND_BUFFER_SIZE ∧
    ((initLogger.enqueue [9] 0 true).1.m_send_buffer = initLogger.m_send_buffer ∧
      (initLogger.enqueue [9] 0 true).1.m_write_pos = initLogger.m_write_pos ∧
      (initLogger.enqueue [9] 0 true).1.m_missed_count = inc16 initLogger.m_missed_count) :=
  ⟨by decide, enqueue_zero_length_counts_miss initLogger [9] true (by decide)⟩

/-- C7: invoking `process` while a transfer is in flight, or while no data is
pending (`m_write_pos = m_read_pos`), is a no-op: the state is returned unchanged
and nothing is handed to the hardware. -/
theorem process_noop_when_sending_or_empty (s : Logger) (b : Bool)
    (h : s.m_is_sending = true ∨ s.m_write_pos = s.m_read_pos) :
    s.process b = (s, none) := by
  by_cases hb : (s.m_is_sending || b) = true
  · unfold Logger.process
    rw [if_pos hb]
  · have hsend : s.m_is_sending = false := by
      cases hs : s.m_is_sending
      · rfl
      · exact absurd (by rw [hs]; rfl) hb
    have hwr : s.m_write_pos = s.m_read_pos := by
      rcases h with h | h
      · exact absurd h (by rw [hsend]; exact fun hff => nomatch hff)
      · exact h
    have heta : ({ s with m_is_sending := false } : Logger) = s := by
      rw [← hsend]
    unfold Logger.process Logger.startTransfer
    rw [if_neg hb,
      if_neg (show ¬(s.m_write_pos ≠ s.m_read_pos ∧ s.m_enqueue_guard = 0) from
        fun hc => hc.1 hwr),
      heta]

/-- Witness for C7 at the initial state (empty buffer, idle). -/
theorem process_noop_when_sending_or_empty_witness :
    (initLogger.m_is_sending = true ∨ initLogger.m_write_pos = initLogger.m_read_pos) ∧
    initLogger.process false = (initLogger, none) :=
  ⟨Or.inr rfl, process_noop_when_sending_or_empty initLogger false (Or.inr rfl)⟩

/-- The state exhibiting the C8 counterexample: the missed counter at its 16-bit
maximum. -/
def c8Logger : Logger := { initLogger with m_missed_count := 65535 }

/-- C8 counterexample: with `m_missed_count = 65535`, a dropped enqueue performs the
16-bit increment `ATOMIC_INCH` and the counter wraps to 0, strictly decreasing, so
missed_count is not monotone under the arithmetic the code performs. -/
theorem missed_count_wraps_at_65535 :
    (c8Logger.enqueue [] 512 true).1.m_missed_count < c8Logger.m_missed_count := by
  decide

/-- C8 (amended): every operation leaves `m_missed_count` unchanged or increments
it by one modulo 2 ^ 16; missed_count never decreases except when that 16-bit
increment wraps from 65535 to 0. -/
theorem missed_count_monotone_mod_wrap (s : Logger) (str : List Nat) (len : Nat)
    (b b' : Bool) :
    ((s.enqueue str len b).1.m_missed_count = s.m_missed_count ∨
      (s.enqueue str len b).1.m_missed_count = inc16 s.m_missed_count) ∧
    (s.process b').1.m_missed_count = s.m_missed_count ∧
    s.transferCompletedCallback.1.m_missed_count = s.m_missed_count := by
  refine ⟨?_, (process_fields s b').2.2.2.1, ?_⟩
  · rcases enqueue_cases s str len b with ⟨_, heq⟩ | ⟨_, heq⟩
    · left
      rw [heq]
      exact (process_fields _ b).2.2.2.1
    · right
      rw [heq]
      exact (process_fields _ b).2.2.2.1
  · exact (startTransfer_fields { s with m_read_pos := s.m_new_read_pos }).2.2.2.1

/-- C3: when the reservation of `enqueue(str, length)` succeeds, the bytes
`str[0..length)` end up in storage at positions `(old write_pos + i) mod
SEND_BUFFER_SIZE`; the two copy loops of the code realize exactly this circular
placement, splitting at the end of storage when the destination range crosses it. -/
theorem enqueue_copies_bytes_circularly (s : Logger) (str : List Nat) (len : Nat) (b : Bool)
    (hr : s.m_read_pos < SEND_BUFFER_SIZE) (hw : s.m_write_pos < SEND_BUFFER_SIZE)
    (h0 : 0 < len) (hle : len ≤ s.availableSpace s.m_write_pos) :
    ∀ i, i < len →
      (s.enqueue str len b).1.m_send_buffer ((s.m_write_pos + i) % SEND_BUFFER_SIZE) =
        str.getD i 0 := by
  intro i hi
  have hlen : len ≤ SEND_BUFFER_SIZE - 1 := le_trans hle (availableSpace_le s _ hr hw)
  obtain ⟨e1, _, _, _⟩ := enqueue_state_success s str len b hr hw h0 hle
  rw [e1, enqueueWrite_apply s.m_send_buffer str s.m_write_pos len
    ((s.m_write_pos + i) % SEND_BUFFER_SIZE) hw h0 hlen (by simp only [SEND_BUFFER_SIZE]; omega)]
  rw [distC_index s.m_write_pos i hw (by simp only [SEND_BUFFER_SIZE] at hlen ⊢; omega)]
  rw [if_pos hi]

/-- Witness for C3: a two-byte message enqueued at the initial state. -/
theorem enqueue_copies_bytes_circularly_witness :
    initLogger.m_read_pos < SEND_BUFFER_SIZE ∧ initLogger.m_write_pos < SEND_BUFFER_SIZE ∧
    0 < 2 ∧ 2 ≤ initLogger.availableSpace initLogger.m_write_pos ∧
    (∀ i, i < 2 →
      (initLogger.enqueue [65, 66] 2 false).1.m_send_buffer
          ((initLogger.m_write_pos + i) % SEND_BUFFER_SIZE) = [65, 66].getD i 0) :=
  ⟨by decide, by decide, by decide, by decide,
    enqueue_copies_bytes_circularly initLogger [65, 66] 2 false
      (by decide) (by decide) (by decide) (by decide)⟩

/-- C4: when `startTransfer` runs with data pending (`m_write_pos ≠ m_read_pos`)
and no reservation in flight (`m_enqueue_guard = 0`), it records the pending read
cursor and hands a physically contiguous range to the hardware: all pending bytes
`(write_pos - read_pos)` starting at `read_pos` when the region does not wrap, else
the `SEND_BUFFER_SIZE - read_pos` bytes up to the end of storage with pending read
cursor 0; every emitted request satisfies `start + count ≤ SEND_BUFFER_SIZE`. -/
theorem startTransfer_contiguous_range (s : Logger) (hr : s.m_read_pos < SEND_BUFFER_SIZE)
    (hw : s.m_write_pos < SEND_BUFFER_SIZE) (hne : s.m_write_pos ≠ s.m_read_pos)
    (hg : s.m_enqueue_guard = 0) :
    (s.m_read_pos < s.m_write_pos →
      s.startTransfer.1.m_new_read_pos = s.m_write_pos ∧
      s.startTransfer.2 = some (s.m_read_pos, s.m_write_pos - s.m_read_pos)) ∧
    (s.m_write_pos < s.m_read_pos →
      s.startTransfer.1.m_new_read_pos = 0 ∧
      s.startTransfer.2 = some (s.m_read_pos, SEND_BUFFER_SIZE - s.m_read_pos)) ∧
    (∀ p c, s.startTransfer.2 = some (p, c) →
      p = s.m_read_pos ∧ p + c ≤ SEND_BUFFER_SIZE) := by
  have hc : s.m_write_pos ≠ s.m_read_pos ∧ s.m_enqueue_guard = 0 := ⟨hne, hg⟩
  by_cases hlt : s.m_read_pos < s.m_write_pos
  · have hst : s.startTransfer =
        ({ s with m_is_sending := true, m_new_read_pos := s.m_write_pos },
          some (s.m_read_pos, sub16 s.m_write_pos s.m_read_pos)) := by
      unfold Logger.startTransfer
      rw [if_pos hc, if_pos hlt]
    have hsub : sub16 s.m_write_pos s.m_read_pos = s.m_write_pos - s.m_read_pos :=
      sub16_of_le _ _ (by simp only [SEND_BUFFER_SIZE] at hw; omega) (le_of_lt hlt)
    rw [hst]
    refine ⟨fun _ => ⟨rfl, by rw [hsub]⟩,
      fun hgt => absurd hgt (Nat.not_lt.mpr (le_of_lt hlt)), ?_⟩
    intro p c hpc
    rw [Option.some.injEq, Prod.mk.injEq] at hpc
    obtain ⟨hp, hc2⟩ := hpc
    subst hp
    subst hc2
    exact ⟨rfl, by rw [hsub]; simp only [SEND_BUFFER_SIZE] at *; omega⟩
  · have hgt : s.m_write_pos < s.m_read_pos := by omega
    have hst : s.startTransfer =
        ({ s with m_is_sending := true, m_new_read_pos := 0 },
          some (s.m_read_pos, sub16 SEND_BUFFER_SIZE s.m_read_pos)) := by
      unfold Logger.startTransfer
      rw [if_pos hc, if_neg hlt]
    have hsub : sub16 SEND_BUFFER_SIZE s.m_read_pos = SEND_BUFFER_SIZE - s.m_read_pos := by
      simp only [sub16, SEND_BUFFER_SIZE] at *
      omega
    rw [hst]
    refine ⟨fun hlt2 => absurd hlt2 hlt, fun _ => ⟨rfl, by rw [hsub]⟩, ?_⟩
    intro p c hpc
    rw [Option.some.injEq, Prod.mk.injEq] at hpc
    obtain ⟨hp, hc2⟩ := hpc
    subst hp
    subst hc2
    exact ⟨rfl, by rw [hsub]; simp only [SEND_BUFFER_SIZE] at *; omega⟩

/-- The state exhibiting the C4 witness: three bytes pending, not wrapping. -/
def c4Logger : Logger := { initLogger with m_write_pos := 3 }

/-- Witness for C4 at a state with a non-wrapping pending region. -/
theorem startTransfer_contiguous_range_witness :
    c4Logger.m_read_pos < SEND_BUFFER_SIZE ∧ c4Logger.m_write_pos < SEND_BUFFER_SIZE ∧
    c4Logger.m_write_pos ≠ c4Logger.m_read_pos ∧ c4Logger.m_enqueue_guard = 0 ∧
    ((c4Logger.m_read_pos < c4Logger.m_write_pos →
      c4Logger.startTransfer.1.m_new_read_pos = c4Logger.m_write_pos ∧
      c4Logger.startTransfer.2 =
        some (c4Logger.m_read_pos, c4Logger.m_write_pos - c4Logger.m_read_pos)) ∧
    (c4Logger.m_write_pos < c4Logger.m_read_pos →
      c4Logger.startTransfer.1.m_new_read_pos = 0 ∧
      c4Logger.startTransfer.2 =
        some (c4Logger.m_read_pos, SEND_BUFFER_SIZE - c4Logger.m_read_pos)) ∧
    (∀ p c, c4Logger.startTransfer.2 = some (p, c) →
      p = c4Logger.m_read_pos ∧ p + c ≤ SEND_BUFFER_SIZE)) :=
  ⟨by decide, by decide, by decide, rfl,
    startTransfer_contiguous_range c4Logger (by decide) (by decide) (by decide) rfl⟩

/-- C5: `availableSpace` equals capacity minus the occupied count minus one, never
exceeds `SEND_BUFFER_SIZE - 1`, depends only on `m_read_pos` (and the given write
position), a nonempty reservation that fits can never make the write position hit
the read position, and occupied count zero characterizes `read = write` (the empty
buffer) unambiguously. -/
theorem availableSpace_one_slot_reserved (s : Logger) (w : Nat)
    (hr : s.m_read_pos < SEND_BUFFER_SIZE) (hw : w < SEND_BUFFER_SIZE) :
    s.availableSpace w = SEND_BUFFER_SIZE - distC s.m_read_pos w - 1 ∧
    s.availableSpace w ≤ SEND_BUFFER_SIZE - 1 ∧
    (∀ t : Logger, t.m_read_pos = s.m_read_pos → t.availableSpace w = s.availableSpace w) ∧
    (∀ len, 0 < len → len ≤ s.availableSpace w → advancePos w len ≠ s.m_read_pos) ∧
    (distC s.m_read_pos w = 0 ↔ s.m_read_pos = w) := by
  refine ⟨?_, availableSpace_le s w hr hw, ?_, ?_, ?_⟩
  · rw [availableSpace_eq s w hr hw]
    have hd := distC_lt s.m_read_pos w
    simp only [SEND_BUFFER_SIZE] at *
    omega
  · intro t ht
    unfold Logger.availableSpace
    rw [ht]
  · intro len h0 hle
    rw [availableSpace_eq s w hr hw] at hle
    simp only [advancePos, distC, SEND_BUFFER_SIZE] at *
    omega
  · simp only [distC, SEND_BUFFER_SIZE] at *
    omega

/-- Witness for C5 at the initial read position and write position 0. -/
theorem availableSpace_one_slot_reserved_witness :
    initLogger.m_read_pos < SEND_BUFFER_SIZE ∧ (0 : Nat) < SEND_BUFFER_SIZE ∧
    (initLogger.availableSpace 0 = SEND_BUFFER_SIZE - distC initLogger.m_read_pos 0 - 1 ∧
    initLogger.availableSpace 0 ≤ SEND_BUFFER_SIZE - 1 ∧
    (∀ t : Logger, t.m_read_pos = initLogger.m_read_pos →
      t.availableSpace 0 = initLogger.availableSpace 0) ∧
    (∀ len, 0 < len → len ≤ initLogger.availableSpace 0 →
      advancePos 0 len ≠ initLogger.m_read_pos) ∧
    (distC initLogger.m_read_pos 0 = 0 ↔ initLogger.m_read_pos = 0)) :=
  ⟨by decide, by decide,
    availableSpace_one_slot_reserved initLogger 0 (by decide) (by decide)⟩

/-- C9 counterexample: a successful enqueue from the main context also changes
`m_new_read_pos`, because `enqueue` ends by invoking the transfer kick, which
records a new pending read cursor; the claim that `m_new_read_pos` is unchanged
fails. -/
theorem enqueue_kick_changes_new_read_pos :
    initLogger.reserveTarget 1 ≠ initLogger.m_write_pos ∧
    (initLogger.enqueue [65] 1 false).1.m_new_read_pos ≠ initLogger.m_new_read_pos := by
  decide

/-- C9 (amended): a successful enqueue advances `m_write_pos` circularly by
`length` and writes only the reserved storage range: `m_read_pos`,
`m_missed_count` and every storage byte at circular distance at least `length`
from the old write position are unchanged; `m_is_sending` and `m_new_read_pos`
may additionally change through the transfer kick at the end of `enqueue`. -/
theorem enqueue_success_frame (s : Logger) (str : List Nat) (len : Nat) (b : Bool)
    (hr : s.m_read_pos < SEND_BUFFER_SIZE) (hw : s.m_write_pos < SEND_BUFFER_SIZE)
    (h0 : 0 < len) (hle : len ≤ s.availableSpace s.m_write_pos) :
    (s.enqueue str len b).1.m_write_pos = advancePos s.m_write_pos len ∧
    (s.enqueue str len b).1.m_read_pos = s.m_read_pos ∧
    (s.enqueue str len b).1.m_missed_count = s.m_missed_count ∧
    ∀ j, j < SEND_BUFFER_SIZE → len ≤ distC s.m_write_pos j →
      (s.enqueue str len b).1.m_send_buffer j = s.m_send_buffer j := by
  have hlen : len ≤ SEND_BUFFER_SIZE - 1 := le_trans hle (availableSpace_le s _ hr hw)
  obtain ⟨e1, e2, e3, e4⟩ := enqueue_state_success s str len b hr hw h0 hle
  refine ⟨e2, e3, e4, ?_⟩
  intro j hj hdist
  rw [e1, enqueueWrite_apply s.m_send_buffer str s.m_write_pos len j hw h0 hlen hj,
    if_neg (by omega)]

/-- Witness for C9 (amended): a one-byte enqueue at the initial state. -/
theorem enqueue_success_frame_witness :
    initLogger.m_read_pos < SEND_BUFFER_SIZE ∧ initLogger.m_write_pos < SEND_BUFFER_SIZE ∧
    0 < 1 ∧ 1 ≤ initLogger.availableSpace initLogger.m_write_pos ∧
    ((initLogger.enqueue [65] 1 false).1.m_write_pos = advancePos initLogger.m_write_pos 1 ∧
    (initLogger.enqueue [65] 1 false).1.m_read_pos = initLogger.m_read_pos ∧
    (initLogger.enqueue [65] 1 false).1.m_missed_count = initLogger.m_missed_count ∧
    ∀ j, j < SEND_BUFFER_SIZE → 1 ≤ distC initLogger.m_write_pos j →
      (initLogger.enqueue [65] 1 false).1.m_send_buffer j = initLogger.m_send_buffer j) :=
  ⟨by decide, by decide, by decide, by decide,
    enqueue_success_frame initLogger [65] 1 false (by decide) (by decide) (by decide)
      (by decide)⟩

/-- C6: along every step of the system from a reachable state, `m_read_pos` either
stays unchanged or adopts the currently recorded `m_new_read_pos`; in the latter
case `m_write_pos` is unchanged and the occupied circular region `[read_pos,
write_pos)` only shrinks, so the read position never advances past the write
position. -/
theorem read_pos_only_adopts_pending_cursor (ops : List Op) (op : Op) :
    (execOp (execTrace initSys ops) op).st.m_read_pos =
      (execTrace initSys ops).st.m_read_pos ∨
    ((execOp (execTrace initSys ops) op).st.m_read_pos =
        (execTrace initSys ops).st.m_new_read_pos ∧
      (execOp (execTrace initSys ops) op).st.m_write_pos =
        (execTrace initSys ops).st.m_write_pos ∧
      distC (execOp (execTrace initSys ops) op).st.m_read_pos
          (execOp (execTrace initSys ops) op).st.m_write_pos ≤
        distC (execTrace initSys ops).st.m_read_pos
          (execTrace initSys ops).st.m_write_pos) := by
  obtain ⟨hst, _⟩ := execTrace_inv ops initSys initSys_inv
  cases op with
  | enq str len b =>
      left
      exact (enqueue_spec (execTrace initSys ops).st str len b hst).2.2.1
  | proc b =>
      left
      exact (process_spec (execTrace initSys ops).st b hst).2.2.2.2.1
  | complete =>
      right
      obtain ⟨g1, g2, g3, g4, g5, g6, g7⟩ := complete_spec (execTrace initSys ops).st hst
      refine ⟨g5, g4, ?_⟩
      show distC (execTrace initSys ops).st.transferCompletedCallback.1.m_read_pos
          (execTrace initSys ops).st.transferCompletedCallback.1.m_write_pos ≤ _
      rw [g5, g4]
      obtain ⟨hr, hw, hn, hg, hq5, hq6⟩ := hst
      cases hb : (execTrace initSys ops).st.m_is_sending with
      | true =>
          rw [distC_sub _ _ _ hr hn hw (hq5 hb)]
          omega
      | false =>
          rw [hq6 hb]

/-- C1: for every operation sequence in which each enqueue call asks for at most
the space available at the time of the call, the byte stream handed to the
hardware transmitter, followed by the bytes still pending in the buffer, is
exactly the concatenation of the enqueued messages in reservation order — every
message appears in the transmitted stream exactly once, byte-for-byte, in order. -/
theorem transmitted_stream_is_enqueued_messages (ops : List Op)
    (hfit : fitsAll initLogger ops = true) :
    (execTrace initSys ops).emitted ++ residualBytes (execTrace initSys ops).st =
      (enqMsgs ops).flatten := by
  obtain ⟨_, heq⟩ := execTrace_inv ops initSys initSys_inv
  rw [heq, execTrace_msgs ops initSys initSys_inv hfit]
  show ([] : List (List Nat)).flatten ++ (enqMsgs ops).flatten = _
  simp

/-- Witness for C1: two enqueues, a wrap-free transfer and its completion. -/
theorem transmitted_stream_is_enqueued_messages_witness :
    fitsAll initLogger
      [Op.enq [65, 66, 67] 3 false, Op.enq [68, 69] 2 true, Op.complete, Op.complete] = true ∧
    (execTrace initSys
        [Op.enq [65, 66, 67] 3 false, Op.enq [68, 69] 2 true, Op.complete,
          Op.complete]).emitted ++
      residualBytes (execTrace initSys
        [Op.enq [65, 66, 67] 3 false, Op.enq [68, 69] 2 true, Op.complete,
          Op.complete]).st =
      (enqMsgs
        [Op.enq [65, 66, 67] 3 false, Op.enq [68, 69] 2 true, Op.complete,
          Op.complete]).flatten :=
  ⟨by decide, transmitted_stream_is_enqueued_messages _ (by decide)⟩
